import Mathlib

/-!
Shallow embedding of `src/packages/yew-bootstrap/src/component/card/image.rs`
(the `CardImage` and `CardImageOverlay` components of yew-bootstrap), together
with the semantics of the `yew::Classes` type those components rely on.

`yew::Classes` stores its class tokens in an `IndexSet<Cow<'static, str>>`:
insertion order is preserved, and inserting a token that is already present is
a no-op (the first occurrence keeps its position).  Every way of building a
`Classes` value goes through `Into<Classes>`, which splits raw strings on
whitespace, so the tokens of a `Classes` value are nonempty, whitespace-free
and pairwise distinct.  We model a `Classes` value as the ordered list of its
tokens (a `List String`); distinctness of a caller-supplied value appears as a
`Nodup` hypothesis where a theorem needs it.
-/

/-- One `IndexSet::insert` on the token list of a `Classes` value: append the
token at the end unless it is already present (in which case the set, and the
position of the existing occurrence, are unchanged). -/
def Classes.insertToken (set : List String) (t : String) : List String :=
  if t ∈ set then set else set ++ [t]

/-- Rust's `str::split_whitespace` on the character list of a string: maximal
runs of non-whitespace characters, in order; no empty pieces are produced. -/
def splitWhitespaceAux : List Char → List Char → List String
  | [], acc => if acc.isEmpty then [] else [String.mk acc.reverse]
  | c :: cs, acc =>
    if c.isWhitespace then
      if acc.isEmpty then splitWhitespaceAux cs []
      else String.mk acc.reverse :: splitWhitespaceAux cs []
    else splitWhitespaceAux cs (c :: acc)

/-- Rust's `str::split_whitespace`, the tokenisation used by
`impl From<&str> for Classes`. -/
def splitWhitespace (s : String) : List String :=
  splitWhitespaceAux s.toList []

/-- `impl From<&str> for Classes`: split the string on whitespace and collect
the pieces into the index set, in order, deduplicating. -/
def Classes.fromStr (s : String) : List String :=
  (splitWhitespace s).foldl Classes.insertToken []

/-- `Classes::extend` (used at line 43 of `image.rs` as
`classes.extend(&props.class)`): each item of the right-hand collection is
converted to `Classes` and union-inserted into the index set, in order.  The
items here are tokens of an existing `Classes` value, hence single
whitespace-free words, for which the conversion yields the token itself. -/
def Classes.extend (set : List String) (other : List String) : List String :=
  other.foldl Classes.insertToken set

/-- `Classes::push` (used at line 83 of `image.rs` as
`classes.push("card-img-overlay")`): convert the argument to `Classes`
(splitting on whitespace) and union-insert its tokens into the index set. -/
def Classes.push (set : List String) (s : String) : List String :=
  Classes.extend set (Classes.fromStr s)

/-- The markup value produced by the `html!` macro: either a text fragment or
an element node with a tag name, its `class` attribute (a `Classes` value),
its remaining attributes in order, and its child nodes. -/
inductive Html where
  | text (s : String)
  | node (tag : String) (classes : List String) (attrs : List (String × String))
      (children : List Html)

/-- The tag name of an element node. -/
def Html.tagOf : Html → Option String
  | .text _ => none
  | .node t _ _ _ => some t

/-- The `class` attribute of a node (a text fragment has none). -/
def Html.classesOf : Html → List String
  | .text _ => []
  | .node _ c _ _ => c

/-- Look up a non-class attribute of a node by name. -/
def Html.attrOf : Html → String → Option String
  | .text _, _ => none
  | .node _ _ attrs _, name => (attrs.find? (fun p => p.fst == name)).map Prod.snd

/-- The child nodes of a node. -/
def Html.childrenOf : Html → List Html
  | .text _ => []
  | .node _ _ _ cs => cs

/-- `ImageVariant` (lines 4-12 of `image.rs`): controls the display variant
used for a `CardImage`. -/
inductive ImageVariant where
  | Default
  | Top
  | Bottom
deriving DecidableEq

/-- `CardImageProps` (lines 14-28 of `image.rs`).  `variant` carries
`#[prop_or(ImageVariant::Default)]`, `class` and `alt` carry
`#[prop_or_default]`; `src` has no default and is required. -/
structure CardImageProps where
  variant : ImageVariant := ImageVariant.Default
  «class» : List String := []
  src : String
  alt : String := ""

/-- `CardImage` (lines 35-48 of `image.rs`): pick the base class from the
variant, extend it with the caller-supplied classes, and emit a single `img`
node with `data-src`, a fixed inline `style` string, and `alt`. -/
def CardImage (props : CardImageProps) : Html :=
  let classes := match props.variant with
    | ImageVariant.Default => Classes.fromStr "card-img"
    | ImageVariant.Top => Classes.fromStr "card-img-top"
    | ImageVariant.Bottom => Classes.fromStr "card-img-bottom"
  let classes := Classes.extend classes props.«class»
  Html.node "img" classes
    [("data-src", props.src),
     ("style", "height: 180px; width: 100%; display: block;"),
     ("alt", props.alt)]
    []

/-- `CardImageOverlayProps` (lines 50-59 of `image.rs`).  Both fields carry
`#[prop_or_default]`. -/
structure CardImageOverlayProps where
  children : List Html := []
  «class» : List String := []

/-- `CardImageOverlay` (lines 80-90 of `image.rs`): start from the
caller-supplied classes, push the fixed `card-img-overlay` class, and emit a
single `div` node containing the children. -/
def CardImageOverlay (props : CardImageOverlayProps) : Html :=
  let classes := props.«class»
  let classes := Classes.push classes "card-img-overlay"
  Html.node "div" classes [] props.children

/-- The variant-to-class match of lines 37-41 of `image.rs`, as a standalone
total function. -/
def resolveVariant : ImageVariant → List String
  | ImageVariant.Default => Classes.fromStr "card-img"
  | ImageVariant.Top => Classes.fromStr "card-img-top"
  | ImageVariant.Bottom => Classes.fromStr "card-img-bottom"

/-- Closed form of `Classes::extend` on a duplicate-free right-hand side: the
result is the left-hand tokens followed by exactly those right-hand tokens not
already present, in order. -/
theorem Classes.extend_eq_append_filter (extra base : List String) (h : extra.Nodup) :
    Classes.extend base extra = base ++ extra.filter (fun t => decide (t ∉ base)) := by
  induction extra generalizing base with
  | nil => simp [Classes.extend]
  | cons x xs ih =>
    rw [List.nodup_cons] at h
    obtain ⟨hx, hxs⟩ := h
    show Classes.extend (Classes.insertToken base x) xs = _
    by_cases hmem : x ∈ base
    · rw [show Classes.insertToken base x = base from if_pos hmem, ih base hxs,
        List.filter_cons]
      simp [hmem]
    · rw [show Classes.insertToken base x = base ++ [x] from if_neg hmem, ih _ hxs,
        List.filter_cons]
      have hfil : xs.filter (fun t => decide (t ∉ base ++ [x]))
          = xs.filter (fun t => decide (t ∉ base)) := by
        refine List.filter_congr fun t ht => ?_
        have hne : t ≠ x := fun e => hx (e ▸ ht)
        simp [List.mem_append, hne]
      rw [hfil]
      simp [hmem, List.append_assoc]

/-- `IndexSet::insert` keeps the token list duplicate-free. -/
theorem Classes.insertToken_nodup (set : List String) (t : String) (h : set.Nodup) :
    (Classes.insertToken set t).Nodup := by
  unfold Classes.insertToken
  split
  · exact h
  · rename_i hmem
    simp [List.nodup_append, h, hmem]

/-- `Classes::extend` keeps the token list duplicate-free, whatever is
extended in. -/
theorem Classes.extend_nodup (extra set : List String) (h : set.Nodup) :
    (Classes.extend set extra).Nodup := by
  induction extra generalizing set with
  | nil => exact h
  | cons x xs ih => exact ih _ (Classes.insertToken_nodup set x h)

/-- `CardImage` written with the variant match factored out: the inline match
of lines 37-41 agrees with `resolveVariant`. -/
theorem CardImage_eq (props : CardImageProps) :
    CardImage props = Html.node "img"
      (Classes.extend (resolveVariant props.variant) props.«class»)
      [("data-src", props.src),
       ("style", "height: 180px; width: 100%; display: block;"),
       ("alt", props.alt)] [] := by
  cases props with
  | mk v c s a => cases v <;> rfl

/-- The base class of every variant is a single token. -/
theorem resolveVariant_nodup (v : ImageVariant) : (resolveVariant v).Nodup := by
  cases v <;> decide

/-- Claim C1, counterexample to the claim as stated: with variant `Default`
and caller classes `["card-img"]`, the produced class attribute is
`["card-img"]`, not the base class concatenated with the extra classes
(`["card-img", "card-img"]`) — the duplicate token is dropped. -/
theorem claim_C1_counterexample :
    Html.classesOf
      (CardImage { variant := ImageVariant.Default, «class» := ["card-img"], src := "s" })
      = ["card-img"]
    ∧ Html.classesOf
      (CardImage { variant := ImageVariant.Default, «class» := ["card-img"], src := "s" })
      ≠ resolveVariant ImageVariant.Default ++ ["card-img"] := by
  constructor <;> decide

/-- Claim C1, amended: for every produced markup node, the class attribute is
the fixed base class (if any) followed by those caller-supplied extra tokens
that are not already present, in their original order — a caller token equal
to an already-present token is dropped rather than repeated. -/
theorem claim_C1_classes (ip : CardImageProps) (op : CardImageOverlayProps)
    (hip : ip.«class».Nodup) :
    Html.classesOf (CardImage ip)
      = resolveVariant ip.variant
          ++ ip.«class».filter (fun t => decide (t ∉ resolveVariant ip.variant))
    ∧ Html.classesOf (CardImageOverlay op)
      = op.«class» ++ ["card-img-overlay"].filter (fun t => decide (t ∉ op.«class»)) := by
  constructor
  · rw [CardImage_eq]
    exact Classes.extend_eq_append_filter _ _ hip
  · show Classes.extend op.«class» ["card-img-overlay"] = _
    exact Classes.extend_eq_append_filter _ _ (by decide)

/-- Claim C1 witness: the amended statement at variant `Default`, extra
classes `["card-img", "foo"]`. -/
theorem claim_C1_classes_witness :
    Html.classesOf
      (CardImage { variant := ImageVariant.Default, «class» := ["card-img", "foo"], src := "s" })
      = resolveVariant ImageVariant.Default
          ++ ["card-img", "foo"].filter
              (fun t => decide (t ∉ resolveVariant ImageVariant.Default)) :=
  (claim_C1_classes
    { variant := ImageVariant.Default, «class» := ["card-img", "foo"], src := "s" }
    { «class» := ["custom"] } (by decide)).1

/-- Claim C2, counterexample to the claim as stated: composing `["a"]` with
`["a"]` yields `["a"]` of length 1, not a sequence of length 1 + 1 = 2 with
the duplicate preserved. -/
theorem claim_C2_counterexample :
    Classes.extend ["a"] ["a"] = ["a"]
    ∧ (Classes.extend ["a"] ["a"]).length
      ≠ (["a"] : List String).length + (["a"] : List String).length := by
  constructor <;> decide

/-- Claim C2, amended: for all class sets A and B (B duplicate-free, as every
`Classes` value is), composition appends after A exactly those tokens of B not
already in A, preserving their order; tokens already present are deduplicated
rather than repeated, so the length is len(A) plus the number of tokens of B
not in A.  `Classes::push` of the overlay's fixed token is the same operation
with the singleton token list. -/
theorem claim_C2_compose (A B : List String) (hB : B.Nodup) :
    Classes.extend A B = A ++ B.filter (fun t => decide (t ∉ A))
    ∧ (Classes.extend A B).length
      = A.length + (B.filter (fun t => decide (t ∉ A))).length
    ∧ Classes.push A "card-img-overlay" = Classes.extend A ["card-img-overlay"] := by
  refine ⟨Classes.extend_eq_append_filter B A hB, ?_, rfl⟩
  rw [Classes.extend_eq_append_filter B A hB, List.length_append]

/-- Claim C2 witness: the amended statement at A = `["a"]`, B = `["a", "b"]`. -/
theorem claim_C2_compose_witness :
    Classes.extend ["a"] ["a", "b"]
      = ["a"] ++ ["a", "b"].filter (fun t => decide (t ∉ (["a"] : List String))) :=
  (claim_C2_compose ["a"] ["a", "b"] (by decide)).1

/-- Claim C3: the variant-to-class mapping is total over the closed
three-element enumeration and returns exactly the specified class token for
each variant. -/
theorem claim_C3_resolve :
    resolveVariant ImageVariant.Default = ["card-img"]
    ∧ resolveVariant ImageVariant.Top = ["card-img-top"]
    ∧ resolveVariant ImageVariant.Bottom = ["card-img-bottom"] := by
  refine ⟨by decide, by decide, by decide⟩

/-- Claim C4: `CardImage` produces a single `img` node whose class attribute
is the composed class list, whose `data-src` attribute equals the source
(while the primary load attribute `src` is absent), whose `style` is the
fixed inline sizing string, and whose `alt` equals the alt text; in
particular the spec example with variant `Top`, source `imgsrc.jpg`, alt
`desc` and extra class `foo` yields classes `["card-img-top", "foo"]`. -/
theorem claim_C4_image_render (props : CardImageProps) :
    CardImage props = Html.node "img"
        (Classes.extend (resolveVariant props.variant) props.«class»)
        [("data-src", props.src),
         ("style", "height: 180px; width: 100%; display: block;"),
         ("alt", props.alt)] []
    ∧ Html.attrOf (CardImage props) "data-src" = some props.src
    ∧ Html.attrOf (CardImage props) "src" = none
    ∧ Html.attrOf (CardImage props) "alt" = some props.alt
    ∧ Html.classesOf
        (CardImage { variant := ImageVariant.Top, «class» := ["foo"], src := "imgsrc.jpg", alt := "desc" })
        = ["card-img-top", "foo"] :=
  ⟨CardImage_eq props, rfl, rfl, rfl, by decide⟩

/-- Claim C5, counterexample to the claim as stated: when the caller classes
already contain `card-img-overlay`, the output class attribute is the caller
classes alone — the fixed class is not appended after them. -/
theorem claim_C5_counterexample :
    Html.classesOf (CardImageOverlay { «class» := ["card-img-overlay"] })
      = ["card-img-overlay"]
    ∧ Html.classesOf (CardImageOverlay { «class» := ["card-img-overlay"] })
      ≠ ["card-img-overlay"] ++ ["card-img-overlay"] := by
  constructor <;> decide

/-- Claim C5, amended: `CardImageOverlay` produces a single `div` node whose
children equal the input children unmodified and whose class attribute is the
caller-supplied classes followed by the fixed `card-img-overlay` class
(reversed order relative to `CardImage`), except that when the caller classes
already contain `card-img-overlay` the class list is the caller classes
unchanged. -/
theorem claim_C5_overlay_render (props : CardImageOverlayProps) :
    Html.tagOf (CardImageOverlay props) = some "div"
    ∧ Html.childrenOf (CardImageOverlay props) = props.children
    ∧ Html.classesOf (CardImageOverlay props)
        = if "card-img-overlay" ∈ props.«class» then props.«class»
          else props.«class» ++ ["card-img-overlay"] :=
  ⟨rfl, rfl, rfl⟩

/-- Claim C6: rendering is total — every input yields a markup node — and an
empty source string is accepted and passed through verbatim to the node's
`data-src` attribute (the attribute that carries the source). -/
theorem claim_C6_no_errors (variant : ImageVariant) (cls : List String) (alt : String) :
    (∀ props : CardImageProps, ∃ t c a ch, CardImage props = Html.node t c a ch)
    ∧ (∀ props : CardImageOverlayProps,
        ∃ t c a ch, CardImageOverlay props = Html.node t c a ch)
    ∧ Html.attrOf (CardImage { variant := variant, «class» := cls, src := "", alt := alt })
        "data-src" = some "" :=
  ⟨fun _ => ⟨_, _, _, _, rfl⟩, fun _ => ⟨_, _, _, _, rfl⟩, rfl⟩

/-- Claim C7: the property defaults hold — variant defaults to `Default`,
class sets and alt text default to empty — and with all defaults the image
node's classes are exactly `["card-img"]` while the overlay with an empty
class set has classes exactly `["card-img-overlay"]`. -/
theorem claim_C7_defaults (s : String) :
    ({ src := s } : CardImageProps).variant = ImageVariant.Default
    ∧ ({ src := s } : CardImageProps).«class» = []
    ∧ ({ src := s } : CardImageProps).alt = ""
    ∧ ({} : CardImageOverlayProps).children = []
    ∧ ({} : CardImageOverlayProps).«class» = []
    ∧ Html.classesOf (CardImage { src := s }) = ["card-img"]
    ∧ Html.classesOf (CardImageOverlay {}) = ["card-img-overlay"] :=
  ⟨rfl, rfl, rfl, rfl, rfl, rfl, by decide⟩

/-- Claim C8: both render functions are deterministic pure functions of their
properties — equal property values produce equal markup nodes. -/
theorem claim_C8_pure (p q : CardImageProps) (p2 q2 : CardImageOverlayProps)
    (h : p = q) (h2 : p2 = q2) :
    CardImage p = CardImage q ∧ CardImageOverlay p2 = CardImageOverlay q2 :=
  ⟨h ▸ rfl, h2 ▸ rfl⟩

/-- Claim C8 witness: determinism at concrete property values. -/
theorem claim_C8_pure_witness :
    CardImage { src := "imgsrc.jpg" } = CardImage { src := "imgsrc.jpg" }
    ∧ CardImageOverlay {} = CardImageOverlay {} :=
  claim_C8_pure { src := "imgsrc.jpg" } { src := "imgsrc.jpg" } {} {} rfl rfl

/-- Claim C9: for duplicate-free caller class sets (as every `Classes` value
is), the produced class attribute contains no duplicate tokens; the image's
base token occurs exactly once, and an overlay whose caller classes already
contain `card-img-overlay` keeps them unchanged, the token at its
first-occurrence position. -/
theorem claim_C9_dedup (ip : CardImageProps) (op : CardImageOverlayProps)
    (hip : ip.«class».Nodup) (hop : op.«class».Nodup) :
    (Html.classesOf (CardImage ip)).Nodup
    ∧ (Html.classesOf (CardImageOverlay op)).Nodup
    ∧ (∀ t ∈ resolveVariant ip.variant, (Html.classesOf (CardImage ip)).count t = 1)
    ∧ ("card-img-overlay" ∈ op.«class» →
        Html.classesOf (CardImageOverlay op) = op.«class») := by
  have himg : Html.classesOf (CardImage ip)
      = Classes.extend (resolveVariant ip.variant) ip.«class» := by
    rw [CardImage_eq]
    rfl
  refine ⟨?_, ?_, ?_, ?_⟩
  · rw [himg]
    exact Classes.extend_nodup _ _ (resolveVariant_nodup ip.variant)
  · show (Classes.push op.«class» "card-img-overlay").Nodup
    exact Classes.extend_nodup _ _ hop
  · intro t ht
    rw [himg]
    have hnd := Classes.extend_nodup ip.«class» _ (resolveVariant_nodup ip.variant)
    have hmem : t ∈ Classes.extend (resolveVariant ip.variant) ip.«class» := by
      rw [Classes.extend_eq_append_filter ip.«class» _ hip]
      exact List.mem_append_left _ ht
    exact List.count_eq_one_of_mem hnd hmem
  · intro hmem
    show Classes.insertToken op.«class» "card-img-overlay" = op.«class»
    exact if_pos hmem

/-- Claim C9 witness: an overlay whose caller classes already contain the
fixed token renders it exactly once, in place. -/
theorem claim_C9_dedup_witness :
    Html.classesOf (CardImageOverlay { «class» := ["card-img-overlay"] })
      = ["card-img-overlay"] :=
  (claim_C9_dedup
    { variant := ImageVariant.Default, «class» := ["card-img"], src := "s" }
    { «class» := ["card-img-overlay"] } (by decide) (by decide)).2.2.2 (by decide)

/-- Claim C10: the `style` attribute of the image node is the exact constant
string for every input — no property influences it — and the image node has
no child content. -/
theorem claim_C10_style (props : CardImageProps) :
    Html.attrOf (CardImage props) "style"
      = some "height: 180px; width: 100%; display: block;"
    ∧ Html.childrenOf (CardImage props) = [] :=
  ⟨rfl, rfl⟩
